import Mathlib

/-!
Shallow embedding of the TFM (TeX Font Metric) decoder of dvisvgm
(`src/TFM.cpp`) and proofs about it.

The embedding models:
  * `std::istream` (as used by the decoder: `get`, `eof`, `seekg`) over a
    finite byte sequence, including the `eofbit`/`failbit` state machine of
    C++ iostreams: a `get()` past the end returns the EOF marker `-1`
    (which, assigned to `UInt32`, is `0xFFFFFFFF`) and sets both `eofbit`
    and `failbit`; `seekg` first clears `eofbit` and then does nothing if
    `failbit` is set (its sentry fails); a `get()` with `failbit` set
    extracts nothing and returns the EOF marker without setting `eofbit`.
  * the static helpers `read_unsigned`, `read_words`, `fix2double` of
    `TFM.cpp`.
  * `TFM::readFromStream` and the four metric queries
    `TFM::getCharWidth/getCharHeight/getCharDepth/getItalicCorr` plus
    `TFM::getDesignSize`.

Machine integers are modelled as `Nat`/`Int` with explicit reductions
modulo `2 ^ 32` / `2 ^ 16` where the C++ types (`UInt32`, `UInt16`,
`unsigned`) truncate.  `double` values produced by `fix2double` are
modelled as exact rationals `ℚ`: every conversion `fix / 2 ^ 20` of a
32-bit value is exactly representable as an IEEE double, so the model is
faithful for the individual conversions.  A `std::vector` subscript with
an index that is out of bounds is undefined behaviour in C++; the metric
queries model such an access as `none` (no defined result), and `some v`
means the C++ code deterministically returns `v`.
-/

namespace TFMModel

/-- Model of a `std::istream` over the contents of one file: the byte
contents, the read position, and the `eofbit`/`failbit` error flags. -/
structure IStream where
  data : List Nat
  pos : Nat
  eofbit : Bool
  failbit : Bool
deriving DecidableEq

/-- Model of `istream::get()`. Returns the value that ends up in a
`UInt32` variable (`UInt32 b = is.get();` in `read_unsigned`): a byte
value `0 ≤ b < 256` on success, and `0xFFFFFFFF` (the EOF marker `-1`
converted to `UInt32`) on failure.  If the stream is already in an error
state the sentry fails and nothing is extracted (`eofbit` unchanged);
otherwise a read past the last byte sets `eofbit` and `failbit`. -/
def IStream.get (s : IStream) : Nat × IStream :=
  if s.failbit || s.eofbit then
    (4294967295, { s with failbit := true })
  else if s.pos < s.data.length then
    (s.data.getD s.pos 0, { s with pos := s.pos + 1 })
  else
    (4294967295, { s with eofbit := true, failbit := true })

/-- Model of `istream::eof()`: reports the `eofbit`. -/
def IStream.eof (s : IStream) : Bool := s.eofbit

/-- Model of `is.seekg(n, ios_base::beg)`: clears `eofbit`; if `failbit`
is set the sentry fails and the position is unchanged, otherwise the
position is set to `n` (seeking a file beyond its end succeeds). -/
def IStream.seekgBeg (s : IStream) (n : Nat) : IStream :=
  if s.failbit then { s with eofbit := false }
  else { s with eofbit := false, pos := n }

/-- Model of `is.seekg(n, ios_base::cur)` for a non-negative offset `n`:
clears `eofbit`; if `failbit` is set the position is unchanged, otherwise
the position advances by `n`. -/
def IStream.seekgCur (s : IStream) (n : Nat) : IStream :=
  if s.failbit then { s with eofbit := false }
  else { s with eofbit := false, pos := s.pos + n }

/-- The loop of `read_unsigned` in `TFM.cpp`:
`for (int i=n-1; i >= 0 && !is.eof(); i--) { UInt32 b = is.get(); ret |= b << (8*i); }`.
The first argument is the number of remaining iterations, so fuel `i + 1`
means the loop variable currently holds `i`.  The shift `b << (8*i)` is
`UInt32` arithmetic, i.e. reduced modulo `2 ^ 32`. -/
def read_unsigned_loop : Nat → IStream → Nat → Nat × IStream
  | 0, s, ret => (ret, s)
  | i + 1, s, ret =>
      if s.eof then (ret, s)
      else
        let bs := s.get
        read_unsigned_loop i bs.2 (ret ||| ((bs.1 <<< (8 * i)) % 2 ^ 32))

/-- Model of `read_unsigned (istream &is, int n)` of `TFM.cpp`: reads up
to `n` bytes most-significant first, stopping early once `eofbit` is
set. -/
def read_unsigned (s : IStream) (n : Nat) : Nat × IStream :=
  read_unsigned_loop n s 0

/-- Model of `read_words (istream &is, vector<T> &v, unsigned n)` of
`TFM.cpp`: clears the vector and fills it with exactly `n` words, each
obtained by `read_unsigned(is, 4)` (no early exit: the C++ loop always
performs `n` assignments). -/
def read_words : IStream → Nat → List Nat × IStream
  | s, 0 => ([], s)
  | s, n + 1 =>
      let ws := read_unsigned s 4
      let rest := read_words ws.2 n
      (ws.1 :: rest.1, rest.2)

/-- Two's-complement reinterpretation of an unsigned 32-bit value as the
C++ signed `FixWord` (`Int32`) it is stored into. -/
def toInt32 (w : Nat) : Int :=
  if w < 2 ^ 31 then (w : Int) else (w : Int) - 2 ^ 32

/-- Model of `fix2double (FixWord fix)` of `TFM.cpp`:
`double(fix)/(1 << 20)`, i.e. the signed fixed-point value with 20
fractional bits, as an exact rational. -/
def fix2double (fix : Nat) : ℚ := (toInt32 fix : ℚ) / 2 ^ 20

/-- Model of the `TFM` object: the scalar fields and the five word
tables filled by `TFM::readFromStream`.  `firstChar` and `lastChar` are
2-byte quantities; table words are stored as their raw unsigned 32-bit
values. -/
structure TFM where
  checksum : Nat
  firstChar : Nat
  lastChar : Nat
  designSize : Nat
  charInfoTable : List Nat
  widthTable : List Nat
  heightTable : List Nat
  depthTable : List Nat
  italicTable : List Nat
deriving DecidableEq

/-- Modelled from the spec: the header file `TFM.h` declaring the field
types of class `TFM` is not part of the given sources; per spec section 4.3
(steps 2 and 3) the header length and `firstChar`/`lastChar` are 2-byte
unsigned quantities, so the stores into `_firstChar`/`_lastChar` (and the
local `UInt16 lh`, `nw`, `nh`, `nd`, `ni`, which are visibly `UInt16` in
`TFM.cpp`) truncate the `UInt32` returned by `read_unsigned` to 16 bits. -/
def toUInt16 (w : Nat) : Nat := w % 2 ^ 16

/-- Model of `TFM::readFromStream (istream &is)` of `TFM.cpp`, lines
86-110, statement by statement.  The count passed to `read_words` for the
char-info table is `_lastChar-_firstChar+1` computed in `int` arithmetic
and converted to the `unsigned` parameter, i.e. reduced modulo `2 ^ 32`.
The function unconditionally returns `true`. -/
def readFromStream (is0 : IStream) : TFM × Bool :=
  let is1 := is0.seekgBeg 2
  let lhP := read_unsigned is1 2
  let lh := toUInt16 lhP.1
  let fcP := read_unsigned lhP.2 2
  let firstChar := toUInt16 fcP.1
  let lcP := read_unsigned fcP.2 2
  let lastChar := toUInt16 lcP.1
  let nwP := read_unsigned lcP.2 2
  let nw := toUInt16 nwP.1
  let nhP := read_unsigned nwP.2 2
  let nh := toUInt16 nhP.1
  let ndP := read_unsigned nhP.2 2
  let nd := toUInt16 ndP.1
  let niP := read_unsigned ndP.2 2
  let ni := toUInt16 niP.1
  let is9 := niP.2.seekgCur 8
  let csP := read_unsigned is9 4
  let dsP := read_unsigned csP.2 4
  let is12 := dsP.2.seekgBeg (24 + lh * 4)
  let ciP := read_words is12 ((((lastChar : Int) - (firstChar : Int) + 1) % 2 ^ 32).toNat)
  let wP := read_words ciP.2 nw
  let hP := read_words wP.2 nh
  let dP := read_words hP.2 nd
  let iP := read_words dP.2 ni
  ({ checksum := csP.1, firstChar := firstChar, lastChar := lastChar,
     designSize := dsP.1, charInfoTable := ciP.1, widthTable := wP.1,
     heightTable := hP.1, depthTable := dP.1, italicTable := iP.1 }, true)

/-- Running the loader on the contents of a file: a freshly opened
stream has position `0` and clear error flags. -/
def loadTFM (data : List Nat) : TFM × Bool :=
  readFromStream ⟨data, 0, false, false⟩

/-- Model of `TFM::getDesignSize`. -/
def getDesignSize (tfm : TFM) : ℚ := fix2double tfm.designSize

/-- Width-index extraction of `TFM::getCharWidth`:
`(_charInfoTable[c-_firstChar] >> 24) & 0xFF`. -/
def widthIndex (w : Nat) : Nat := (w >>> 24) &&& 0xFF

/-- Height-index extraction of `TFM::getCharHeight`:
`(_charInfoTable[c-_firstChar] >> 20) & 0x0F`. -/
def heightIndex (w : Nat) : Nat := (w >>> 20) &&& 0x0F

/-- Depth-index extraction of `TFM::getCharDepth`:
`(_charInfoTable[c-_firstChar] >> 16) & 0x0F`. -/
def depthIndex (w : Nat) : Nat := (w >>> 16) &&& 0x0F

/-- Italic-index extraction of `TFM::getItalicCorr`:
`(_charInfoTable[c-_firstChar] >> 10) & 0x3F`. -/
def italicIndex (w : Nat) : Nat := (w >>> 10) &&& 0x3F

/-- The guard shared by all four metric queries:
`c < _firstChar || c > _lastChar || unsigned(c-_firstChar) >= _charInfoTable.size()`.
The conversion of the `int` difference `c-_firstChar` to `unsigned` is a
reduction modulo `2 ^ 32`. -/
def charOutOfRange (tfm : TFM) (c : Int) : Prop :=
  c < (tfm.firstChar : Int) ∨ (tfm.lastChar : Int) < c ∨
    tfm.charInfoTable.length ≤ (((c - (tfm.firstChar : Int)) % 2 ^ 32).toNat)

instance (tfm : TFM) (c : Int) : Decidable (charOutOfRange tfm c) := by
  unfold charOutOfRange; infer_instance

/-- The char-info word consulted by the queries:
`_charInfoTable[c-_firstChar]` (only evaluated after the guard, where
`0 ≤ c - _firstChar < _charInfoTable.size()`). -/
def charInfoWord (tfm : TFM) (c : Int) : Nat :=
  tfm.charInfoTable.getD (c - (tfm.firstChar : Int)).toNat 0

/-- Model of `TFM::getCharWidth (int c)`, lines 128-133 of `TFM.cpp`.
The subscript `_widthTable[index]` performs no bounds check; an access
with `index >= _widthTable.size()` is undefined behaviour and is
modelled as `none`. -/
def getCharWidth (tfm : TFM) (c : Int) : Option ℚ :=
  if charOutOfRange tfm c then some 0
  else
    match tfm.widthTable[widthIndex (charInfoWord tfm c)]? with
    | none => none
    | some w => some (fix2double w * fix2double tfm.designSize)

/-- Model of `TFM::getCharHeight (int c)`, lines 137-142 of `TFM.cpp`. -/
def getCharHeight (tfm : TFM) (c : Int) : Option ℚ :=
  if charOutOfRange tfm c then some 0
  else
    match tfm.heightTable[heightIndex (charInfoWord tfm c)]? with
    | none => none
    | some w => some (fix2double w * fix2double tfm.designSize)

/-- Model of `TFM::getCharDepth (int c)`, lines 146-151 of `TFM.cpp`. -/
def getCharDepth (tfm : TFM) (c : Int) : Option ℚ :=
  if charOutOfRange tfm c then some 0
  else
    match tfm.depthTable[depthIndex (charInfoWord tfm c)]? with
    | none => none
    | some w => some (fix2double w * fix2double tfm.designSize)

/-- Model of `TFM::getItalicCorr (int c)`, lines 155-160 of `TFM.cpp`. -/
def getItalicCorr (tfm : TFM) (c : Int) : Option ℚ :=
  if charOutOfRange tfm c then some 0
  else
    match tfm.italicTable[italicIndex (charInfoWord tfm c)]? with
    | none => none
    | some w => some (fix2double w * fix2double tfm.designSize)

/-- Modelled from the spec (section 4.1): big-endian assembly of `n` bytes
starting at position `pos`, where a byte position beyond the end of the
data contributes zero.  On fully in-bounds reads this is exactly the
value assembled by `read_unsigned`. -/
def beBytes (data : List Nat) : Nat → Nat → Nat
  | _, 0 => 0
  | pos, n + 1 => ((data.getD pos 0) <<< (8 * n)) ||| beBytes data (pos + 1) n

/-- The position of the stream at the moment `TFM::readFromStream` starts
reading the char-info table, i.e. after the final
`is.seekg(24+lh*4, ios_base::beg)`: the statements of lines 87-103 of
`TFM.cpp`, replayed on a freshly opened stream over `data`. -/
def tableReadPos (data : List Nat) : Nat :=
  let is1 := (IStream.mk data 0 false false).seekgBeg 2
  let lhP := read_unsigned is1 2
  let lh := toUInt16 lhP.1
  let fcP := read_unsigned lhP.2 2
  let lcP := read_unsigned fcP.2 2
  let nwP := read_unsigned lcP.2 2
  let nhP := read_unsigned nwP.2 2
  let ndP := read_unsigned nhP.2 2
  let niP := read_unsigned ndP.2 2
  let is9 := niP.2.seekgCur 8
  let csP := read_unsigned is9 4
  let dsP := read_unsigned csP.2 4
  ((dsP.2.seekgBeg (24 + lh * 4)).pos)

/-- The five word tables obtained by reading, in order, `cnt` char-info
words, `nw` width words, `nh` height words, `nd` depth words and `ni`
italic words, sequentially from absolute position `start` of a stream
with clear error flags.  Used to state where `readFromStream` reads its
tables from. -/
def tablesAt (data : List Nat) (start cnt nw nh nd ni : Nat) :
    List Nat × List Nat × List Nat × List Nat × List Nat :=
  let s : IStream := ⟨data, start, false, false⟩
  let ciP := read_words s cnt
  let wP := read_words ciP.2 nw
  let hP := read_words wP.2 nh
  let dP := read_words hP.2 nd
  let iP := read_words dP.2 ni
  (ciP.1, wP.1, hP.1, dP.1, iP.1)

/-- The end-to-end byte stream of spec section 8: `lh = 2`,
`firstChar = 0`, `lastChar = 1`, `nw = nh = nd = ni = 1`,
`designSize = 0x00A00000` (fixed-point `10.0`), two char-info words that
index entry 0 of every table, width table `[0x00100000]` (fixed-point
`1.0`), and zero entries in the height/depth/italic tables. -/
def stream8 : List Nat :=
  [0, 0, 0, 2, 0, 0, 0, 1, 0, 1, 0, 1, 0, 1, 0, 1,
   0, 0, 0, 0, 0, 0, 0, 0,
   0, 0, 0, 0, 0x00, 0xA0, 0x00, 0x00,
   0, 0, 0, 0, 0, 0, 0, 0,
   0x00, 0x10, 0x00, 0x00,
   0, 0, 0, 0, 0, 0, 0, 0, 0, 0, 0, 0]

/-- A well-formed stream except that the single char-info word
`0x08000000` carries width index 8 while the width table only has the
single declared entry (`nw = 1`): `firstChar = lastChar = 0`,
`nw = nh = nd = ni = 1`, `designSize = 0x00A00000`. -/
def c1data : List Nat :=
  [0, 0, 0, 2, 0, 0, 0, 0, 0, 1, 0, 1, 0, 1, 0, 1,
   0, 0, 0, 0, 0, 0, 0, 0,
   0, 0, 0, 0, 0x00, 0xA0, 0x00, 0x00,
   0x08, 0, 0, 0,
   0x00, 0x10, 0x00, 0x00,
   0, 0, 0, 0, 0, 0, 0, 0, 0, 0, 0, 0]

/-- The stream of spec section 8 truncated to 41 bytes: it ends one byte
into the declared one-word width table. -/
def c2data : List Nat := stream8.take 41

/-- A 32-byte stream whose header declares `firstChar = 2` and
`lastChar = 0` (an inverted character range) and all table lengths 0. -/
def c6data : List Nat :=
  [0, 0, 0, 2, 0, 2, 0, 0, 0, 0, 0, 0, 0, 0, 0, 0,
   0, 0, 0, 0, 0, 0, 0, 0,
   0, 0, 0, 0, 0, 0, 0, 0]

/-- A font object whose char-info table (empty) is shorter than its
declared character range `[0, 5]` suggests. -/
def shortTFM : TFM :=
  { checksum := 0, firstChar := 0, lastChar := 5, designSize := 0,
    charInfoTable := [], widthTable := [], heightTable := [],
    depthTable := [], italicTable := [] }

theorem read_words_length (n : Nat) (s : IStream) :
    ((read_words s n).1).length = n := by
  induction n generalizing s with
  | zero => simp [read_words]
  | succ m ih => simp [read_words, ih]

theorem read_unsigned_loop_eof (n : Nat) (s : IStream) (ret : Nat)
    (h : s.eofbit = true) : read_unsigned_loop n s ret = (ret, s) := by
  cases n with
  | zero => rfl
  | succ m => simp [read_unsigned_loop, IStream.eof, h]

theorem byte_getD_lt (data : List Nat) (hb : ∀ b ∈ data, b < 256)
    (pos : Nat) : data.getD pos 0 < 256 := by
  by_cases h : pos < data.length
  · rw [List.getD_eq_getElem _ _ h]
    exact hb _ (List.getElem_mem h)
  · rw [List.getD_eq_default _ _ (le_of_not_lt h)]
    norm_num

theorem beBytes_lt (data : List Nat) (hb : ∀ b ∈ data, b < 256) :
    ∀ (n pos : Nat), beBytes data pos n < 2 ^ (8 * n) := by
  intro n
  induction n with
  | zero => intro pos; simp [beBytes]
  | succ m ih =>
      intro pos
      have hbyte : data.getD pos 0 < 256 := byte_getD_lt data hb pos
      have h1 : (data.getD pos 0) <<< (8 * m) < 2 ^ (8 * (m + 1)) := by
        rw [Nat.shiftLeft_eq]
        calc (data.getD pos 0) * 2 ^ (8 * m)
            < 256 * 2 ^ (8 * m) := by
              exact (Nat.mul_lt_mul_right (Nat.pos_pow_of_pos _ (by norm_num))).mpr hbyte
          _ = 2 ^ (8 * (m + 1)) := by ring
      have h2 : beBytes data (pos + 1) m < 2 ^ (8 * (m + 1)) := by
        exact lt_of_lt_of_le (ih (pos + 1))
          (Nat.pow_le_pow_right (by norm_num) (by omega))
      exact lt_of_lt_of_le (Nat.or_lt_two_pow h1 h2) (le_refl _)

theorem beBytes_eq_zero (data : List Nat) :
    ∀ (n pos : Nat), data.length ≤ pos → beBytes data pos n = 0 := by
  intro n
  induction n with
  | zero => intro pos _; rfl
  | succ m ih =>
      intro pos h
      have h0 : data.getD pos 0 = 0 := List.getD_eq_default _ _ h
      rw [beBytes, h0, Nat.zero_shiftLeft, ih (pos + 1) (by omega)]
      rfl

theorem toUInt16_small (x : Nat) (h : x < 2 ^ 16) : toUInt16 x = x :=
  Nat.mod_eq_of_lt h

theorem beBytes2_lt (data : List Nat) (hb : ∀ b ∈ data, b < 256)
    (pos : Nat) : beBytes data pos 2 < 2 ^ 16 := beBytes_lt data hb 2 pos

/-- A fully in-bounds run of the loop of `read_unsigned`: the bytes are
assembled most-significant first and the position advances by `n`. -/
theorem read_unsigned_loop_inbounds (data : List Nat)
    (hb : ∀ b ∈ data, b < 256) :
    ∀ (n pos ret : Nat), n ≤ 4 → pos + n ≤ data.length →
      read_unsigned_loop n ⟨data, pos, false, false⟩ ret =
        (ret ||| beBytes data pos n, ⟨data, pos + n, false, false⟩) := by
  intro n
  induction n with
  | zero => intro pos ret _ _; simp [read_unsigned_loop, beBytes]
  | succ m ih =>
      intro pos ret hm hlen
      have hpos : pos < data.length := by omega
      have hbyte : data.getD pos 0 < 256 := byte_getD_lt data hb pos
      have hshift : (data.getD pos 0) <<< (8 * m) < 2 ^ 32 := by
        rw [Nat.shiftLeft_eq]
        calc (data.getD pos 0) * 2 ^ (8 * m)
            ≤ 255 * 2 ^ 24 := by
              apply Nat.mul_le_mul (by omega)
              exact Nat.pow_le_pow_right (by norm_num) (by omega)
          _ < 2 ^ 32 := by norm_num
      have hget : IStream.get ⟨data, pos, false, false⟩ =
          (data.getD pos 0, ⟨data, pos + 1, false, false⟩) := by
        simp [IStream.get, hpos]
      rw [read_unsigned_loop]
      simp only [IStream.eof, Bool.false_eq_true, if_false, hget,
        Nat.mod_eq_of_lt hshift]
      rw [ih (pos + 1) (ret ||| ((data.getD pos 0) <<< (8 * m)))
        (by omega) (by omega)]
      rw [beBytes]
      rw [Nat.or_assoc]
      have hpq : pos + 1 + m = pos + (m + 1) := by omega
      rw [hpq]

theorem read_unsigned_inbounds (data : List Nat)
    (hb : ∀ b ∈ data, b < 256) (n pos q : Nat) (hn : n ≤ 4)
    (hlen : pos + n ≤ data.length) (hq : q = pos + n) :
    read_unsigned ⟨data, pos, false, false⟩ n =
      (beBytes data pos n, ⟨data, q, false, false⟩) := by
  rw [read_unsigned, read_unsigned_loop_inbounds data hb n pos 0 hn hlen,
    Nat.zero_or, hq]

/-- A run of the loop of `read_unsigned` that hits end-of-input: the
available bytes are assembled at their positions, the first failing
`get()` ORs in the EOF marker `0xFFFFFFFF` shifted to the current byte
position, the loop then stops (so strictly later positions contribute
zero), and the stream is left with `eofbit` and `failbit` set. -/
theorem read_unsigned_loop_short (data : List Nat)
    (hb : ∀ b ∈ data, b < 256) :
    ∀ (n pos ret : Nat), n ≤ 4 → pos ≤ data.length → data.length < pos + n →
      read_unsigned_loop n ⟨data, pos, false, false⟩ ret =
        (ret ||| beBytes data pos n |||
          ((4294967295 <<< (8 * (n - 1 - (data.length - pos)))) % 2 ^ 32),
         ⟨data, data.length, true, true⟩) := by
  intro n
  induction n with
  | zero => intro pos ret _ h1 h2; omega
  | succ m ih =>
      intro pos ret hm hle hlt
      by_cases hpos : pos < data.length
      · have hbyte : data.getD pos 0 < 256 := byte_getD_lt data hb pos
        have hshift : (data.getD pos 0) <<< (8 * m) < 2 ^ 32 := by
          rw [Nat.shiftLeft_eq]
          calc (data.getD pos 0) * 2 ^ (8 * m)
              ≤ 255 * 2 ^ 24 := by
                apply Nat.mul_le_mul (by omega)
                exact Nat.pow_le_pow_right (by norm_num) (by omega)
            _ < 2 ^ 32 := by norm_num
        have hget : IStream.get ⟨data, pos, false, false⟩ =
            (data.getD pos 0, ⟨data, pos + 1, false, false⟩) := by
          simp [IStream.get, hpos]
        rw [read_unsigned_loop]
        simp only [IStream.eof, Bool.false_eq_true, if_false, hget,
          Nat.mod_eq_of_lt hshift]
        rw [ih (pos + 1) (ret ||| ((data.getD pos 0) <<< (8 * m)))
          (by omega) (by omega) (by omega)]
        rw [beBytes]
        have hsh : m - 1 - (data.length - (pos + 1)) =
            m + 1 - 1 - (data.length - pos) := by omega
        rw [hsh]
        simp only [Nat.or_assoc]
      · have hpe : pos = data.length := by omega
        have hget : IStream.get ⟨data, pos, false, false⟩ =
            (4294967295, ⟨data, pos, true, true⟩) := by
          simp [IStream.get, hpos]
        rw [read_unsigned_loop]
        simp only [IStream.eof, Bool.false_eq_true, if_false, hget]
        rw [read_unsigned_loop_eof m _ _ (by rfl)]
        rw [beBytes_eq_zero data (m + 1) pos (by omega), Nat.or_zero]
        have hsh : m + 1 - 1 - (data.length - pos) = m := by omega
        rw [hsh, hpe]

/-- Corollary of the loop lemma for a whole `read_unsigned` call that
starts with clear flags and runs out of input. -/
theorem read_unsigned_short (data : List Nat)
    (hb : ∀ b ∈ data, b < 256) (n pos : Nat) (hn : n ≤ 4)
    (hle : pos ≤ data.length) (hlt : data.length < pos + n) :
    read_unsigned ⟨data, pos, false, false⟩ n =
      (beBytes data pos n |||
        ((4294967295 <<< (8 * (n - 1 - (data.length - pos)))) % 2 ^ 32),
       ⟨data, data.length, true, true⟩) := by
  rw [read_unsigned, read_unsigned_loop_short data hb n pos 0 hn hle hlt,
    Nat.zero_or]

/-- Structural characterization of a load from a stream whose first 32
bytes (preamble and the checksum/design-size words of the header) are
present: the scalar fields are the big-endian values at their fixed
offsets, and the five tables are read sequentially starting at absolute
position `24 + lh*4`. -/
theorem loadTFM_eq (data : List Nat) (h32 : 32 ≤ data.length)
    (hb : ∀ b ∈ data, b < 256) :
    loadTFM data =
      ({ checksum := beBytes data 24 4,
         firstChar := beBytes data 4 2,
         lastChar := beBytes data 6 2,
         designSize := beBytes data 28 4,
         charInfoTable := (tablesAt data (24 + beBytes data 2 2 * 4)
           ((((beBytes data 6 2 : Int) - (beBytes data 4 2 : Int) + 1) % 2 ^ 32).toNat)
           (beBytes data 8 2) (beBytes data 10 2) (beBytes data 12 2)
           (beBytes data 14 2)).1,
         widthTable := (tablesAt data (24 + beBytes data 2 2 * 4)
           ((((beBytes data 6 2 : Int) - (beBytes data 4 2 : Int) + 1) % 2 ^ 32).toNat)
           (beBytes data 8 2) (beBytes data 10 2) (beBytes data 12 2)
           (beBytes data 14 2)).2.1,
         heightTable := (tablesAt data (24 + beBytes data 2 2 * 4)
           ((((beBytes data 6 2 : Int) - (beBytes data 4 2 : Int) + 1) % 2 ^ 32).toNat)
           (beBytes data 8 2) (beBytes data 10 2) (beBytes data 12 2)
           (beBytes data 14 2)).2.2.1,
         depthTable := (tablesAt data (24 + beBytes data 2 2 * 4)
           ((((beBytes data 6 2 : Int) - (beBytes data 4 2 : Int) + 1) % 2 ^ 32).toNat)
           (beBytes data 8 2) (beBytes data 10 2) (beBytes data 12 2)
           (beBytes data 14 2)).2.2.2.1,
         italicTable := (tablesAt data (24 + beBytes data 2 2 * 4)
           ((((beBytes data 6 2 : Int) - (beBytes data 4 2 : Int) + 1) % 2 ^ 32).toNat)
           (beBytes data 8 2) (beBytes data 10 2) (beBytes data 12 2)
           (beBytes data 14 2)).2.2.2.2 }, true) := by
  have hs1 : IStream.seekgBeg ⟨data, 0, false, false⟩ 2 =
      ⟨data, 2, false, false⟩ := rfl
  have h1 := read_unsigned_inbounds data hb 2 2 4 (by norm_num) (by omega) (by norm_num)
  have h2 := read_unsigned_inbounds data hb 2 4 6 (by norm_num) (by omega) (by norm_num)
  have h3 := read_unsigned_inbounds data hb 2 6 8 (by norm_num) (by omega) (by norm_num)
  have h4 := read_unsigned_inbounds data hb 2 8 10 (by norm_num) (by omega) (by norm_num)
  have h5 := read_unsigned_inbounds data hb 2 10 12 (by norm_num) (by omega) (by norm_num)
  have h6 := read_unsigned_inbounds data hb 2 12 14 (by norm_num) (by omega) (by norm_num)
  have h7 := read_unsigned_inbounds data hb 2 14 16 (by norm_num) (by omega) (by norm_num)
  have hsc : IStream.seekgCur ⟨data, 16, false, false⟩ 8 =
      ⟨data, 24, false, false⟩ := rfl
  have h8 := read_unsigned_inbounds data hb 4 24 28 (by norm_num) (by omega) (by norm_num)
  have h9 := read_unsigned_inbounds data hb 4 28 32 (by norm_num) (by omega) (by norm_num)
  have ht2 : toUInt16 (beBytes data 2 2) = beBytes data 2 2 :=
    toUInt16_small _ (beBytes2_lt data hb 2)
  have ht4 : toUInt16 (beBytes data 4 2) = beBytes data 4 2 :=
    toUInt16_small _ (beBytes2_lt data hb 4)
  have ht6 : toUInt16 (beBytes data 6 2) = beBytes data 6 2 :=
    toUInt16_small _ (beBytes2_lt data hb 6)
  have ht8 : toUInt16 (beBytes data 8 2) = beBytes data 8 2 :=
    toUInt16_small _ (beBytes2_lt data hb 8)
  have ht10 : toUInt16 (beBytes data 10 2) = beBytes data 10 2 :=
    toUInt16_small _ (beBytes2_lt data hb 10)
  have ht12 : toUInt16 (beBytes data 12 2) = beBytes data 12 2 :=
    toUInt16_small _ (beBytes2_lt data hb 12)
  have ht14 : toUInt16 (beBytes data 14 2) = beBytes data 14 2 :=
    toUInt16_small _ (beBytes2_lt data hb 14)
  simp only [loadTFM, readFromStream, tablesAt]
  rw [hs1, h1]
  dsimp only
  rw [ht2, h2]
  dsimp only
  rw [ht4, h3]
  dsimp only
  rw [ht6, h4]
  dsimp only
  rw [ht8, h5]
  dsimp only
  rw [ht10, h6]
  dsimp only
  rw [ht12, h7]
  dsimp only
  rw [ht14, hsc, h8]
  dsimp only
  rw [h9]
  dsimp only
  have hs2 : IStream.seekgBeg ⟨data, 32, false, false⟩
      (24 + beBytes data 2 2 * 4) =
      ⟨data, 24 + beBytes data 2 2 * 4, false, false⟩ := rfl
  rw [hs2]

/-- On a stream whose first 32 bytes are present, `readFromStream` is
positioned at absolute offset `24 + lh*4` when it starts reading the
char-info table, where `lh` is the big-endian 2-byte value at offset 2. -/
theorem tableReadPos_eq (data : List Nat) (h32 : 32 ≤ data.length)
    (hb : ∀ b ∈ data, b < 256) :
    tableReadPos data = 24 + beBytes data 2 2 * 4 := by
  have hs1 : IStream.seekgBeg ⟨data, 0, false, false⟩ 2 =
      ⟨data, 2, false, false⟩ := rfl
  have h1 := read_unsigned_inbounds data hb 2 2 4 (by norm_num) (by omega) (by norm_num)
  have h2 := read_unsigned_inbounds data hb 2 4 6 (by norm_num) (by omega) (by norm_num)
  have h3 := read_unsigned_inbounds data hb 2 6 8 (by norm_num) (by omega) (by norm_num)
  have h4 := read_unsigned_inbounds data hb 2 8 10 (by norm_num) (by omega) (by norm_num)
  have h5 := read_unsigned_inbounds data hb 2 10 12 (by norm_num) (by omega) (by norm_num)
  have h6 := read_unsigned_inbounds data hb 2 12 14 (by norm_num) (by omega) (by norm_num)
  have h7 := read_unsigned_inbounds data hb 2 14 16 (by norm_num) (by omega) (by norm_num)
  have hsc : IStream.seekgCur ⟨data, 16, false, false⟩ 8 =
      ⟨data, 24, false, false⟩ := rfl
  have h8 := read_unsigned_inbounds data hb 4 24 28 (by norm_num) (by omega) (by norm_num)
  have h9 := read_unsigned_inbounds data hb 4 28 32 (by norm_num) (by omega) (by norm_num)
  have ht2 : toUInt16 (beBytes data 2 2) = beBytes data 2 2 :=
    toUInt16_small _ (beBytes2_lt data hb 2)
  simp only [tableReadPos]
  rw [hs1, h1]
  dsimp only
  rw [ht2, h2]
  dsimp only
  rw [h3]
  dsimp only
  rw [h4]
  dsimp only
  rw [h5]
  dsimp only
  rw [h6]
  dsimp only
  rw [h7]
  dsimp only
  rw [hsc, h8]
  dsimp only
  rw [h9]
  rfl

/-- `readFromStream` has no failure path: it returns `true` for every
input stream. -/
theorem readFromStream_snd (s : IStream) : (readFromStream s).2 = true := rfl

theorem loadTFM_snd (data : List Nat) : (loadTFM data).2 = true := rfl

/-- A character code below `firstChar` or above `lastChar`, or whose
zero-based offset is not an index of the char-info table, makes the
guard of the metric queries fire. -/
theorem getCharWidth_of_oor (tfm : TFM) (c : Int)
    (h : charOutOfRange tfm c) : getCharWidth tfm c = some 0 := by
  rw [getCharWidth, if_pos h]

theorem getCharHeight_of_oor (tfm : TFM) (c : Int)
    (h : charOutOfRange tfm c) : getCharHeight tfm c = some 0 := by
  rw [getCharHeight, if_pos h]

theorem getCharDepth_of_oor (tfm : TFM) (c : Int)
    (h : charOutOfRange tfm c) : getCharDepth tfm c = some 0 := by
  rw [getCharDepth, if_pos h]

theorem getItalicCorr_of_oor (tfm : TFM) (c : Int)
    (h : charOutOfRange tfm c) : getItalicCorr tfm c = some 0 := by
  rw [getItalicCorr, if_pos h]

/-- Claim C1 (evaluation at the failing input): the font loaded from
`c1data` has a one-entry width table, the char-info word of character 0
carries width index 8, and the width query performs the unchecked access
`_widthTable[8]` on that one-entry table: an out-of-bounds vector read
(undefined behaviour, modelled as `none`), not the `0.0` the claim
requires. -/
theorem claim_C1_eval :
    (loadTFM c1data).1.widthTable.length = 1 ∧
    widthIndex (charInfoWord (loadTFM c1data).1 0) = 8 ∧
    getCharWidth (loadTFM c1data).1 0 = none := by decide

/-- Claim C2 (counterexample): loading the truncated stream `c2data`,
which ends one byte into its declared one-word width table, still
reports success (`readFromStream` returns `true`) and yields a font
object; no load-level failure is surfaced.  The single width word
assembles the one available byte with the EOF marker:
`0xFFFF0000 = 4294901760`. -/
theorem claim_C2_counterexample :
    (loadTFM c2data).2 = true ∧
    (loadTFM c2data).1.widthTable = [4294901760] := by decide

/-- Claim C2 (amended): for every stream whose 32-byte preamble/header
prefix is present, even one that ends before the declared width table
can be fully read, the load reports success and materializes the width
table at exactly its declared length `nw` (missing words are filled per
the short-read behaviour of `read_unsigned`); it never reports a
load-level failure. -/
theorem claim_C2 (data : List Nat) (h32 : 32 ≤ data.length)
    (hb : ∀ b ∈ data, b < 256)
    (htrunc : data.length < 24 + beBytes data 2 2 * 4 +
      ((((beBytes data 6 2 : Int) - (beBytes data 4 2 : Int) + 1) % 2 ^ 32).toNat) * 4 +
      beBytes data 8 2 * 4) :
    (loadTFM data).2 = true ∧
    (loadTFM data).1.widthTable.length = beBytes data 8 2 := by
  refine ⟨loadTFM_snd data, ?_⟩
  rw [loadTFM_eq data h32 hb]
  dsimp only [tablesAt]
  rw [read_words_length]

/-- Witness for the amended claim C2 at the concrete truncated stream
`c2data`. -/
theorem claim_C2_witness :
    (32 ≤ c2data.length ∧
      c2data.length < 24 + beBytes c2data 2 2 * 4 +
        ((((beBytes c2data 6 2 : Int) - (beBytes c2data 4 2 : Int) + 1) % 2 ^ 32).toNat) * 4 +
        beBytes c2data 8 2 * 4) ∧
    ((loadTFM c2data).2 = true ∧
      (loadTFM c2data).1.widthTable.length = beBytes c2data 8 2) :=
  ⟨⟨by decide, by decide⟩, claim_C2 c2data (by decide) (by decide) (by decide)⟩

/-- Claim C3: for a font whose `lastChar` fits its 2-byte field and a
character code `c` in `[firstChar, lastChar]` whose char-info offset and
all four sub-field indices are valid, each metric query returns exactly
`fix2double(tableEntry) * fix2double(designSize)`, i.e. the exact
product `(tableEntry / 2^20) * (designSize / 2^20)` with both factors
converted by the fixed-point converter. -/
theorem claim_C3 (tfm : TFM) (c : Int) (h16 : tfm.lastChar < 2 ^ 16)
    (hfc : (tfm.firstChar : Int) ≤ c) (hlc : c ≤ (tfm.lastChar : Int))
    (hci : (c - (tfm.firstChar : Int)).toNat < tfm.charInfoTable.length)
    (hw : widthIndex (charInfoWord tfm c) < tfm.widthTable.length)
    (hh : heightIndex (charInfoWord tfm c) < tfm.heightTable.length)
    (hd : depthIndex (charInfoWord tfm c) < tfm.depthTable.length)
    (hi : italicIndex (charInfoWord tfm c) < tfm.italicTable.length) :
    getCharWidth tfm c =
      some (fix2double (tfm.widthTable.getD (widthIndex (charInfoWord tfm c)) 0) *
        fix2double tfm.designSize) ∧
    getCharHeight tfm c =
      some (fix2double (tfm.heightTable.getD (heightIndex (charInfoWord tfm c)) 0) *
        fix2double tfm.designSize) ∧
    getCharDepth tfm c =
      some (fix2double (tfm.depthTable.getD (depthIndex (charInfoWord tfm c)) 0) *
        fix2double tfm.designSize) ∧
    getItalicCorr tfm c =
      some (fix2double (tfm.italicTable.getD (italicIndex (charInfoWord tfm c)) 0) *
        fix2double tfm.designSize) := by
  have hnoor : ¬ charOutOfRange tfm c := by
    unfold charOutOfRange
    rintro (h | h | h)
    · omega
    · omega
    · have hmod : (c - (tfm.firstChar : Int)) % 2 ^ 32 = c - (tfm.firstChar : Int) :=
        Int.emod_eq_of_lt (by omega) (by omega)
      rw [hmod] at h
      omega
  refine ⟨?_, ?_, ?_, ?_⟩
  · rw [getCharWidth, if_neg hnoor, List.getElem?_eq_getElem hw,
      List.getD_eq_getElem _ 0 hw]
  · rw [getCharHeight, if_neg hnoor, List.getElem?_eq_getElem hh,
      List.getD_eq_getElem _ 0 hh]
  · rw [getCharDepth, if_neg hnoor, List.getElem?_eq_getElem hd,
      List.getD_eq_getElem _ 0 hd]
  · rw [getItalicCorr, if_neg hnoor, List.getElem?_eq_getElem hi,
      List.getD_eq_getElem _ 0 hi]

/-- Witness for claim C3 at the end-to-end stream of spec section 8:
the loaded font satisfies all validity hypotheses for characters 0 and
1, and both widths evaluate to exactly `10.0`
(`(0x00100000 / 2^20) * (0x00A00000 / 2^20) = 1 * 10`). -/
theorem claim_C3_witness :
    getCharWidth (loadTFM stream8).1 0 = some 10 ∧
    getCharWidth (loadTFM stream8).1 1 = some 10 := by
  have h0 := claim_C3 (loadTFM stream8).1 0 (by decide) (by decide) (by decide)
    (by decide) (by decide) (by decide) (by decide) (by decide)
  have h1 := claim_C3 (loadTFM stream8).1 1 (by decide) (by decide) (by decide)
    (by decide) (by decide) (by decide) (by decide) (by decide)
  have hw0 : (loadTFM stream8).1.widthTable.getD
      (widthIndex (charInfoWord (loadTFM stream8).1 0)) 0 = 1048576 := by decide
  have hw1 : (loadTFM stream8).1.widthTable.getD
      (widthIndex (charInfoWord (loadTFM stream8).1 1)) 0 = 1048576 := by decide
  have hds : (loadTFM stream8).1.designSize = 10485760 := by decide
  rw [hw0, hds] at h0
  rw [hw1, hds] at h1
  have hval : fix2double 1048576 * fix2double 10485760 = 10 := by
    norm_num [fix2double, toInt32]
  rw [hval] at h0 h1
  exact ⟨h0.1, h1.1⟩

/-- Claim C4: the four sub-table indices are extracted by unsigned
shift-and-mask at exactly the bit layout of spec section 3: for a 32-bit
char-info word, the width index is the 8 bits at offset 0 from the most
significant bit, the height index the 4 bits at offset 8, the depth
index the 4 bits at offset 12, and the italic index the 6 bits at offset
16 (the n bits at offset k from the MSB of a 32-bit word being
`w / 2 ^ (32 - k - n) % 2 ^ n`). -/
theorem claim_C4 (w : Nat) (h : w < 2 ^ 32) :
    widthIndex w = w / 2 ^ 24 % 2 ^ 8 ∧
    heightIndex w = w / 2 ^ 20 % 2 ^ 4 ∧
    depthIndex w = w / 2 ^ 16 % 2 ^ 4 ∧
    italicIndex w = w / 2 ^ 10 % 2 ^ 6 := by
  refine ⟨?_, ?_, ?_, ?_⟩
  · rw [widthIndex, Nat.shiftRight_eq_div_pow,
      show (0xFF : Nat) = 2 ^ 8 - 1 by norm_num,
      Nat.and_pow_two_sub_one_eq_mod]
  · rw [heightIndex, Nat.shiftRight_eq_div_pow,
      show (0x0F : Nat) = 2 ^ 4 - 1 by norm_num,
      Nat.and_pow_two_sub_one_eq_mod]
  · rw [depthIndex, Nat.shiftRight_eq_div_pow,
      show (0x0F : Nat) = 2 ^ 4 - 1 by norm_num,
      Nat.and_pow_two_sub_one_eq_mod]
  · rw [italicIndex, Nat.shiftRight_eq_div_pow,
      show (0x3F : Nat) = 2 ^ 6 - 1 by norm_num,
      Nat.and_pow_two_sub_one_eq_mod]

/-- Witness for claim C4 at the word `0x12345678`. -/
theorem claim_C4_witness :
    (0x12345678 : Nat) < 2 ^ 32 ∧
    (widthIndex 0x12345678 = 0x12345678 / 2 ^ 24 % 2 ^ 8 ∧
      heightIndex 0x12345678 = 0x12345678 / 2 ^ 20 % 2 ^ 4 ∧
      depthIndex 0x12345678 = 0x12345678 / 2 ^ 16 % 2 ^ 4 ∧
      italicIndex 0x12345678 = 0x12345678 / 2 ^ 10 % 2 ^ 6) :=
  ⟨by decide, claim_C4 0x12345678 (by decide)⟩

/-- Claim C5: every character code outside `[firstChar, lastChar]`
yields `0.0` from all four metric queries, without failing. -/
theorem claim_C5 (tfm : TFM) (c : Int)
    (h : c < (tfm.firstChar : Int) ∨ (tfm.lastChar : Int) < c) :
    getCharWidth tfm c = some 0 ∧ getCharHeight tfm c = some 0 ∧
    getCharDepth tfm c = some 0 ∧ getItalicCorr tfm c = some 0 := by
  have hoor : charOutOfRange tfm c := by
    unfold charOutOfRange
    rcases h with h | h
    · exact Or.inl h
    · exact Or.inr (Or.inl h)
  exact ⟨getCharWidth_of_oor _ _ hoor, getCharHeight_of_oor _ _ hoor,
    getCharDepth_of_oor _ _ hoor, getItalicCorr_of_oor _ _ hoor⟩

/-- Witness for claim C5: character 2 of the section 8 font (whose range
is `[0, 1]`) has width, height, depth and italic correction `0.0`. -/
theorem claim_C5_witness :
    (((loadTFM stream8).1.lastChar : Int) < 2) ∧
    (getCharWidth (loadTFM stream8).1 2 = some 0 ∧
      getCharHeight (loadTFM stream8).1 2 = some 0 ∧
      getCharDepth (loadTFM stream8).1 2 = some 0 ∧
      getItalicCorr (loadTFM stream8).1 2 = some 0) :=
  ⟨by decide, claim_C5 (loadTFM stream8).1 2 (Or.inr (by decide))⟩

/-- Claim C6 (counterexample): loading the 32-byte stream `c6data`,
whose header declares `firstChar = 2` and `lastChar = 0`, produces a
char-info table of `(0 - 2 + 1) mod 2^32 = 4294967295` entries — not the
empty table the claim requires (the load does report success). -/
theorem claim_C6_counterexample :
    (loadTFM c6data).2 = true ∧
    (loadTFM c6data).1.charInfoTable.length = 4294967295 := by
  refine ⟨loadTFM_snd c6data, ?_⟩
  rw [loadTFM_eq c6data (by decide) (by decide)]
  dsimp only [tablesAt]
  rw [read_words_length]
  decide

/-- Claim C6 (amended): a stream with a complete 32-byte preamble/header
prefix declaring `lastChar < firstChar` still loads with success and
every query returns `0.0` for every character code, but the char-info
table is not empty: it has `(lastChar - firstChar + 1)` converted to
unsigned 32-bit entries (that is `2^32 + (lastChar - firstChar + 1)`;
it is empty only in the special case `firstChar = lastChar + 1`). -/
theorem claim_C6 (data : List Nat) (h32 : 32 ≤ data.length)
    (hb : ∀ b ∈ data, b < 256)
    (hinv : beBytes data 6 2 < beBytes data 4 2) :
    (loadTFM data).2 = true ∧
    (loadTFM data).1.charInfoTable.length =
      ((((beBytes data 6 2 : Int) - (beBytes data 4 2 : Int) + 1) % 2 ^ 32).toNat) ∧
    ∀ c : Int, getCharWidth (loadTFM data).1 c = some 0 ∧
      getCharHeight (loadTFM data).1 c = some 0 ∧
      getCharDepth (loadTFM data).1 c = some 0 ∧
      getItalicCorr (loadTFM data).1 c = some 0 := by
  have he := loadTFM_eq data h32 hb
  refine ⟨loadTFM_snd data, ?_, ?_⟩
  · rw [he]
    dsimp only [tablesAt]
    rw [read_words_length]
  · intro c
    have hfc : (loadTFM data).1.firstChar = beBytes data 4 2 := by rw [he]
    have hlc : (loadTFM data).1.lastChar = beBytes data 6 2 := by rw [he]
    have hoor : charOutOfRange (loadTFM data).1 c := by
      unfold charOutOfRange
      rw [hfc, hlc]
      by_cases hc : c < (beBytes data 4 2 : Int)
      · exact Or.inl hc
      · exact Or.inr (Or.inl (by omega))
    exact ⟨getCharWidth_of_oor _ _ hoor, getCharHeight_of_oor _ _ hoor,
      getCharDepth_of_oor _ _ hoor, getItalicCorr_of_oor _ _ hoor⟩

/-- Witness for the amended claim C6 at the concrete inverted-range
stream `c6data`. -/
theorem claim_C6_witness :
    (32 ≤ c6data.length ∧ beBytes c6data 6 2 < beBytes c6data 4 2) ∧
    ((loadTFM c6data).2 = true ∧
      (loadTFM c6data).1.charInfoTable.length =
        ((((beBytes c6data 6 2 : Int) - (beBytes c6data 4 2 : Int) + 1) % 2 ^ 32).toNat) ∧
      ∀ c : Int, getCharWidth (loadTFM c6data).1 c = some 0 ∧
        getCharHeight (loadTFM c6data).1 c = some 0 ∧
        getCharDepth (loadTFM c6data).1 c = some 0 ∧
        getItalicCorr (loadTFM c6data).1 c = some 0) :=
  ⟨⟨by decide, by decide⟩, claim_C6 c6data (by decide) (by decide) (by decide)⟩

/-- Claim C7 (counterexample): reading 2 bytes from a one-byte stream
`[5]` yields `0xFFFFFFFF = 4294967295`, because the failing `get()`
returns the EOF marker `-1` which is ORed into the value before the
`eof()` test stops the loop; the zero-contribution reading of the claim
would instead give `5 << 8 = 1280`. -/
theorem claim_C7_counterexample :
    (read_unsigned ⟨[5], 0, false, false⟩ 2).1 = 4294967295 ∧
    beBytes [5] 0 2 = 1280 := by decide

/-- Claim C7 (amended): when `read_unsigned` hits end-of-input mid-read,
the bytes actually read occupy their most-significant-first positions
(the `beBytes` part), the first unread byte position contributes the EOF
marker `0xFFFFFFFF` shifted into place (not zero), strictly later
positions contribute zero because the loop stops on `eofbit`, and the
load as a whole still does not fail. -/
theorem claim_C7 (data : List Nat) (pos n : Nat) (hn : n ≤ 4)
    (hb : ∀ b ∈ data, b < 256) (hle : pos ≤ data.length)
    (hlt : data.length < pos + n) :
    (read_unsigned ⟨data, pos, false, false⟩ n).1 =
      (beBytes data pos n |||
        ((4294967295 <<< (8 * (n - 1 - (data.length - pos)))) % 2 ^ 32)) ∧
    (loadTFM data).2 = true :=
  ⟨by rw [read_unsigned_short data hb n pos hn hle hlt], loadTFM_snd data⟩

/-- Witness for the amended claim C7 at the one-byte stream `[5]` with a
2-byte read. -/
theorem claim_C7_witness :
    ((2 : Nat) ≤ 4 ∧ (0 : Nat) ≤ ([5] : List Nat).length ∧
      ([5] : List Nat).length < 0 + 2) ∧
    ((read_unsigned ⟨[5], 0, false, false⟩ 2).1 =
      (beBytes [5] 0 2 |||
        ((4294967295 <<< (8 * (2 - 1 - (([5] : List Nat).length - 0)))) % 2 ^ 32)) ∧
     (loadTFM [5]).2 = true) :=
  ⟨⟨by decide, by decide, by decide⟩,
    claim_C7 [5] 0 2 (by decide) (by decide) (by decide) (by decide)⟩

/-- Claim C8 (counterexample): on the empty stream every header read
fails, `failbit` becomes set, and the final
`is.seekg(24+lh*4, ios_base::beg)` is inoperative: the loader is left at
position 2, not at `24 + lh*4` (the code reads `lh = 0xFF00 = 65280`, a
spec-level zero-filled read gives `lh = 0`), and the char-info word it
then reads (`0xFFFFFFFF`) differs from the word that an actual read at
offset `24 + lh*4` for either value of `lh` would produce
(`0xFF000000 = 4278190080`). -/
theorem claim_C8_counterexample :
    tableReadPos [] = 2 ∧
    toUInt16 (read_unsigned ((IStream.mk [] 0 false false).seekgBeg 2) 2).1 = 65280 ∧
    (loadTFM []).1.charInfoTable = [4294967295] ∧
    (read_words (IStream.mk [] 24 false false) 1).1 = [4278190080] ∧
    (read_words (IStream.mk [] (24 + 65280 * 4) false false) 1).1 = [4278190080] := by
  decide

/-- Claim C8 (amended): for every stream that contains the full 32-byte
preamble/header prefix (so that no header read sets `failbit` and the
final seek operates), the loader is positioned at absolute byte offset
`24 + lh*4` before reading any table, and from that position reads, in
order, the char-info table (`lastChar - firstChar + 1` words, as
unsigned 32-bit), the width table (`nw` words), the height table
(`nh` words), the depth table (`nd` words) and the italic table
(`ni` words), regardless of how large `lh` is. -/
theorem claim_C8 (data : List Nat) (h32 : 32 ≤ data.length)
    (hb : ∀ b ∈ data, b < 256) :
    tableReadPos data = 24 + beBytes data 2 2 * 4 ∧
    ((loadTFM data).1.charInfoTable, (loadTFM data).1.widthTable,
      (loadTFM data).1.heightTable, (loadTFM data).1.depthTable,
      (loadTFM data).1.italicTable) =
      tablesAt data (24 + beBytes data 2 2 * 4)
        ((((beBytes data 6 2 : Int) - (beBytes data 4 2 : Int) + 1) % 2 ^ 32).toNat)
        (beBytes data 8 2) (beBytes data 10 2) (beBytes data 12 2)
        (beBytes data 14 2) := by
  refine ⟨tableReadPos_eq data h32 hb, ?_⟩
  rw [loadTFM_eq data h32 hb]

/-- Witness for the amended claim C8 at the section 8 stream. -/
theorem claim_C8_witness :
    (32 ≤ stream8.length) ∧
    (tableReadPos stream8 = 24 + beBytes stream8 2 2 * 4 ∧
      ((loadTFM stream8).1.charInfoTable, (loadTFM stream8).1.widthTable,
        (loadTFM stream8).1.heightTable, (loadTFM stream8).1.depthTable,
        (loadTFM stream8).1.italicTable) =
        tablesAt stream8 (24 + beBytes stream8 2 2 * 4)
          ((((beBytes stream8 6 2 : Int) - (beBytes stream8 4 2 : Int) + 1) % 2 ^ 32).toNat)
          (beBytes stream8 8 2) (beBytes stream8 10 2) (beBytes stream8 12 2)
          (beBytes stream8 14 2)) :=
  ⟨by decide, claim_C8 stream8 (by decide) (by decide)⟩

/-- Claim C9: decoding equal byte streams twice yields font objects
whose width, height, depth and italic-correction queries agree on every
character code in range, and whose design sizes agree. -/
theorem claim_C9 (d1 d2 : List Nat) (heq : d1 = d2) (c : Int)
    (hfc : ((loadTFM d1).1.firstChar : Int) ≤ c)
    (hlc : c ≤ ((loadTFM d1).1.lastChar : Int)) :
    getCharWidth (loadTFM d1).1 c = getCharWidth (loadTFM d2).1 c ∧
    getCharHeight (loadTFM d1).1 c = getCharHeight (loadTFM d2).1 c ∧
    getCharDepth (loadTFM d1).1 c = getCharDepth (loadTFM d2).1 c ∧
    getItalicCorr (loadTFM d1).1 c = getItalicCorr (loadTFM d2).1 c ∧
    getDesignSize (loadTFM d1).1 = getDesignSize (loadTFM d2).1 := by
  subst heq
  exact ⟨rfl, rfl, rfl, rfl, rfl⟩

/-- Witness for claim C9: two loads of the section 8 stream agree at
character 0. -/
theorem claim_C9_witness :
    (((loadTFM stream8).1.firstChar : Int) ≤ 0 ∧
      (0 : Int) ≤ ((loadTFM stream8).1.lastChar : Int)) ∧
    (getCharWidth (loadTFM stream8).1 0 = getCharWidth (loadTFM stream8).1 0 ∧
      getCharHeight (loadTFM stream8).1 0 = getCharHeight (loadTFM stream8).1 0 ∧
      getCharDepth (loadTFM stream8).1 0 = getCharDepth (loadTFM stream8).1 0 ∧
      getItalicCorr (loadTFM stream8).1 0 = getItalicCorr (loadTFM stream8).1 0 ∧
      getDesignSize (loadTFM stream8).1 = getDesignSize (loadTFM stream8).1) :=
  ⟨⟨by decide, by decide⟩, claim_C9 stream8 stream8 rfl 0 (by decide) (by decide)⟩

/-- Claim C10: the queries compare the zero-based offset
`c - firstChar` (converted to unsigned) against the actual size of the
char-info table, so even for a font whose char-info table is shorter
than `lastChar - firstChar + 1` entries, a character inside the declared
range but beyond the table's end yields `0.0` from all four queries and
the char-info table is never indexed out of bounds. -/
theorem claim_C10 (tfm : TFM) (c : Int)
    (hfc : (tfm.firstChar : Int) ≤ c) (hlc : c ≤ (tfm.lastChar : Int))
    (hshort : tfm.charInfoTable.length ≤
      (((c - (tfm.firstChar : Int)) % 2 ^ 32).toNat)) :
    getCharWidth tfm c = some 0 ∧ getCharHeight tfm c = some 0 ∧
    getCharDepth tfm c = some 0 ∧ getItalicCorr tfm c = some 0 := by
  have hoor : charOutOfRange tfm c := by
    unfold charOutOfRange
    exact Or.inr (Or.inr hshort)
  exact ⟨getCharWidth_of_oor _ _ hoor, getCharHeight_of_oor _ _ hoor,
    getCharDepth_of_oor _ _ hoor, getItalicCorr_of_oor _ _ hoor⟩

/-- Witness for claim C10: a font with declared range `[0, 5]` but an
empty char-info table returns `0.0` for character 3. -/
theorem claim_C10_witness :
    ((shortTFM.firstChar : Int) ≤ 3 ∧ (3 : Int) ≤ (shortTFM.lastChar : Int) ∧
      shortTFM.charInfoTable.length ≤
        (((3 - (shortTFM.firstChar : Int)) % 2 ^ 32).toNat)) ∧
    (getCharWidth shortTFM 3 = some 0 ∧ getCharHeight shortTFM 3 = some 0 ∧
      getCharDepth shortTFM 3 = some 0 ∧ getItalicCorr shortTFM 3 = some 0) :=
  ⟨⟨by decide, by decide, by decide⟩,
    claim_C10 shortTFM 3 (by decide) (by decide) (by decide)⟩

end TFMModel
